import Mathlib

/-!
Verification development for the aso-scramble-chk matching and
distance-scoring engine (src/main.rs).

Sequences are modelled as `List Char` (Rust `String` / `&str` iterated by
`chars()`); `String::len` in Rust is the UTF-8 byte count, modelled by
`strBytes`.  Distances (Rust `f32` values that are exact integer counts or
half-integers from sift3) are modelled as `Rat`.  The engine
`compute_distance` is modelled over already-parsed rows (each row the list
of its fields), which is the interface the spec gives the core; the two
`panic!` sites (a row with fewer than two fields, and the `unwrap` on the
Hamming result) are modelled as the `EngineError` outcomes of the run, and
the matching events performed before an abort are recorded in a trace.
-/

namespace Aso

/-- UTF-8 byte count of a sequence: Rust `String::len`. -/
def strBytes (s : List Char) : Nat := (s.map Char.utf8Size).sum

/-- `char_windows` from src/main.rs: all contiguous windows of `win`
characters, one starting at each character position; positions with fewer
than `win` characters remaining produce no window. -/
def char_windows (src : List Char) (win : Nat) : List (List Char) :=
  (List.range src.length).filterMap (fun i =>
    if i + win ≤ src.length then some ((src.drop i).take win) else none)

/-- `atgc_count` from src/main.rs: counts of the exact characters
A, T, G, C (case-sensitive), obtained by filtering the one-character
windows of the sequence. -/
def atgc_count (seq : List Char) : Nat × Nat × Nat × Nat :=
  ( ((char_windows seq 1).filter (fun c => c = ['A'])).length
  , ((char_windows seq 1).filter (fun c => c = ['T'])).length
  , ((char_windows seq 1).filter (fun c => c = ['G'])).length
  , ((char_windows seq 1).filter (fun c => c = ['C'])).length )

/-- `AsoProfile` from src/main.rs.  `aso_names` holds the accumulated
matches of a query profile: pairs of a library entry reference (modelled as
the entry's index in the `library_asos` vector, which identifies the shared
`Rc<AsoProfile>` object) and the computed distance. -/
structure AsoProfile where
  name : List Char
  seq : List Char
  aso_len : Nat
  atgc : Nat × Nat × Nat × Nat
  aso_names : List (Nat × Rat)
deriving DecidableEq

/-- `AsoProfile::new` from src/main.rs: `aso_len` is `seq.len()`, the UTF-8
byte count; `atgc` is computed by `atgc_count`; the match list starts empty. -/
def AsoProfile.new (name seq : List Char) : AsoProfile :=
  { name := name
  , seq := seq
  , aso_len := strBytes seq
  , atgc := atgc_count seq
  , aso_names := [] }

/-- Modelled from the spec: the Hamming metric of the external `distance`
crate (not part of this repository).  Count of character positions at which
the two strings differ; defined only for operands of equal character
length, returning an error value otherwise — the caller unwraps the result. -/
def hamming (a b : List Char) : Option Nat :=
  if a.length = b.length then
    some (((a.zip b).filter (fun p => ¬ p.1 = p.2)).length)
  else
    none

/-- Modelled from the spec: the Levenshtein metric of the external
`distance` crate (not part of this repository) — the minimum number of
single-character insertions, deletions and substitutions transforming one
string into the other, over characters. -/
def levenshtein : List Char → List Char → Nat
  | [], t => t.length
  | a :: s, [] => (a :: s).length
  | a :: s, b :: t =>
      if a = b then levenshtein s t
      else 1 + min (levenshtein s t) (min (levenshtein (a :: s) t) (levenshtein s (b :: t)))
termination_by a b => a.length + b.length

/-- Modelled from the spec: the mismatch re-synchronisation search of the
sift3 heuristic of the external `distance` crate.  At a mismatch position
`c`, looks ahead up to the fixed maximum offset 5 in either string for a
character matching the other string's current character, trying offsets
`i = 0, 1, ...` in order and checking the first string before the second. -/
def sift3_search (s t : List Char) (c : Nat) : Nat → Nat × Nat
  | i =>
    if i < 5 then
      if c + i < s.length ∧ s.getD (c + i) 'A' = t.getD c 'A' then (i, 0)
      else if c + i < t.length ∧ s.getD c 'A' = t.getD (c + i) 'A' then (0, i)
      else sift3_search s t c (i + 1)
    else (0, 0)
termination_by i => 5 - i

/-- Modelled from the spec: the main loop of the sift3 heuristic, counting
the number of matched positions (`lcs`) while it walks both strings with
independent offsets.  The cursor `c` advances by one each iteration and the
loop stops once either `c + offset` runs off its string, so `s.length`
steps of fuel suffice when starting from `c = 0`. -/
def sift3_loop (s t : List Char) : Nat → Nat → Nat → Nat → Nat → Nat
  | 0, _, _, _, lcs => lcs
  | fuel + 1, c, o1, o2, lcs =>
    if c + o1 < s.length ∧ c + o2 < t.length then
      if s.getD (c + o1) 'A' = t.getD (c + o2) 'A' then
        sift3_loop s t fuel (c + 1) o1 o2 (lcs + 1)
      else
        sift3_loop s t fuel (c + 1) (sift3_search s t c 0).1 (sift3_search s t c 0).2 lcs
    else lcs

/-- Modelled from the spec: the sift3 metric of the external `distance`
crate (not part of this repository) — the fast approximate string-distance
heuristic with a fixed maximum look-ahead window of 5, returning
`(|s| + |t|) / 2 - lcs` as a real value (here `Rat`); an empty operand
short-circuits to the other operand's length. -/
def sift3 (s t : List Char) : Rat :=
  if s.isEmpty then (t.length : Rat)
  else if t.isEmpty then (s.length : Rat)
  else ((s.length : Rat) + (t.length : Rat)) / 2 - (sift3_loop s t s.length 0 0 0 0 : Rat)

/-- The `Dist` enum from src/main.rs: the metric selected once per run. -/
inductive Dist where
  | Hamming
  | Levenshtein
  | Sift3
deriving DecidableEq

/-- The metric dispatch of `compute_distance` (src/main.rs lines 200–204):
Hamming's fallible result is the `Option`; `none` models its `unwrap`
panicking.  Levenshtein and sift3 always produce a value, widened to the
common real representation. -/
def distOf (m : Dist) (a b : List Char) : Option Rat :=
  match m with
  | Dist.Hamming => (hamming a b).map (fun n => (n : Rat))
  | Dist.Levenshtein => some ((levenshtein a b : Nat) : Rat)
  | Dist.Sift3 => some (sift3 a b)

/-- The match filter of src/main.rs lines 198–199: equal `aso_len`
(byte length), equal `atgc` composition, and textually distinct sequences. -/
def matchFilter (q l : AsoProfile) : Bool :=
  q.aso_len == l.aso_len && q.atgc == l.atgc && !(q.seq == l.seq)

/-- The two `panic!` outcomes of `compute_distance`: a row with fewer than
two fields (src/main.rs lines 178–180 and 188–190) and the `unwrap` of a
failed Hamming computation (line 201). -/
inductive EngineError where
  | malformedRow
  | hammingPanic
deriving DecidableEq

/-- A matching event: during the run, query number `qIdx` had the library
entry number `libIdx` appended to its match list with distance `d`. -/
inductive Event where
  | matched (qIdx libIdx : Nat) (d : Rat)
deriving DecidableEq

deriving instance DecidableEq for Except

/-- A row of either input source, after parsing: the list of its fields. -/
abbrev Row : Type := List (List Char)

/-- Profile construction from one row (src/main.rs lines 178–184 and
188–193): a row with fewer than two fields is a fatal error; otherwise
fields 0 and 1 become the name and the sequence, extra fields are ignored. -/
def parseRow (row : Row) : Except EngineError AsoProfile :=
  if List.length row < 2 then Except.error EngineError.malformedRow
  else Except.ok (AsoProfile.new (List.getD row 0 []) (List.getD row 1 []))

/-- The query-loading loop (src/main.rs lines 176–185): every query row is
parsed, in order, before any library row is touched. -/
def parseRows (rows : List Row) : Except EngineError (List AsoProfile) :=
  List.mapM parseRow rows

/-- The inner `for_each` of src/main.rs lines 197–207: one library profile
`l` (number `libIdx`) is offered to every query profile in order; a passing
filter computes the distance and appends `(libIdx, d)`, a failed Hamming
`unwrap` aborts.  Returns the matching events performed (also those before
an abort) together with the updated query profiles or the error. -/
def applyLib (m : Dist) (libIdx : Nat) (l : AsoProfile) :
    Nat → List AsoProfile → List Event × Except EngineError (List AsoProfile)
  | _, [] => ([], Except.ok [])
  | qIdx, q :: rest =>
    if matchFilter q l then
      match distOf m q.seq l.seq with
      | some d =>
        let r := applyLib m libIdx l (qIdx + 1) rest
        ( Event.matched qIdx libIdx d :: r.1
        , r.2.map (fun rest2 =>
            { q with aso_names := q.aso_names ++ [(libIdx, d)] } :: rest2) )
      | none => ([], Except.error EngineError.hammingPanic)
    else
      let r := applyLib m libIdx l (qIdx + 1) rest
      (r.1, r.2.map (fun rest2 => q :: rest2))

/-- The library loop of src/main.rs lines 186–208: each library row is
parsed (a short row aborts), appended to the library vector, and matched
against every query profile before the next row is read.  `libAcc` is the
library vector built so far; its length is the index of the next entry. -/
def runLibrary (m : Dist) :
    List AsoProfile → List AsoProfile → List Row →
    List Event × Except EngineError (List AsoProfile × List AsoProfile)
  | qs, libAcc, [] => ([], Except.ok (qs, libAcc))
  | qs, libAcc, row :: rest =>
    match parseRow row with
    | Except.error e => ([], Except.error e)
    | Except.ok l =>
      let r := applyLib m libAcc.length l 0 qs
      match r.2 with
      | Except.error e => (r.1, Except.error e)
      | Except.ok qs2 =>
        let r2 := runLibrary m qs2 (libAcc ++ [l]) rest
        (r.1 ++ r2.1, r2.2)

/-- `compute_distance` up to (but not including) the printing phase
(src/main.rs lines 168–208): load all query rows, then run the library
loop.  The result is the trace of matching events together with either the
final query profiles and the library vector, or the abort error. -/
def computeDistanceCore (m : Dist) (qrows lrows : List Row) :
    List Event × Except EngineError (List AsoProfile × List AsoProfile) :=
  match parseRows qrows with
  | Except.error e => ([], Except.error e)
  | Except.ok qs => runLibrary m qs [] lrows

/-- The lines printed by the reporting phase (src/main.rs lines 209–218):
the column-header line, one query line per query, and one match line per
reported library entry. -/
inductive OutputLine where
  | header
  | queryLine (name seq : List Char)
  | matchLine (name seq : List Char) (d : Rat)
deriving DecidableEq

/-- The default profile used with `List.getD` (never selected at in-range
indices). -/
def dflt : AsoProfile := AsoProfile.new [] []

/-- Rendering of one reported match (src/main.rs line 216): the referenced
library entry's name and sequence together with the stored distance. -/
def renderMatch (lib : List AsoProfile) (e : Nat × Rat) : OutputLine :=
  OutputLine.matchLine
    (List.getD lib e.1 dflt).name
    (List.getD lib e.1 dflt).seq
    e.2

/-- The block printed for one query (src/main.rs lines 211–217): its own
line followed by the rendered sorted match list. -/
def renderBlock (lib : List AsoProfile) (q : AsoProfile) (sorted : List (Nat × Rat)) :
    List OutputLine :=
  OutputLine.queryLine q.name q.seq :: sorted.map (renderMatch lib)

/-- The postcondition of `sort_unstable_by` with the distance comparator
(src/main.rs lines 212–214): the displayed list is a permutation of the
match list, non-decreasing in the distance component.  `sort_unstable_by`
gives no further guarantee about the order of entries that compare equal. -/
def IsSortOutcome (r out : List (Nat × Rat)) : Prop :=
  List.Perm r out ∧ List.Sorted (fun a b : Nat × Rat => a.2 ≤ b.2) out

instance (r out : List (Nat × Rat)) : Decidable (IsSortOutcome r out) :=
  inferInstanceAs (Decidable (_ ∧ _))

/-- The full printed report of a completed run (src/main.rs lines 209–218):
the column-header line, then for each query, in order, its block rendered
from some sort outcome of its match list. -/
def ReportRel (m : Dist) (qrows lrows : List Row) (out : List OutputLine) : Prop :=
  ∃ tr qs lib chosen,
    computeDistanceCore m qrows lrows = (tr, Except.ok (qs, lib)) ∧
    List.length chosen = List.length qs ∧
    (∀ i, i < List.length qs →
      IsSortOutcome (List.getD qs i dflt).aso_names (List.getD chosen i [])) ∧
    out = OutputLine.header ::
      ((qs.zip chosen).map (fun p => renderBlock lib p.1 p.2)).flatten

/-- The distance displayed on a match line (0 for the other line kinds);
used to state that a rendered block is sorted by distance. -/
def lineDist : OutputLine → Rat
  | OutputLine.matchLine _ _ d => d
  | OutputLine.header => 0
  | OutputLine.queryLine _ _ => 0

/-! ### Specification layer

Pure descriptions of what one pass of the engine does, used to state and
prove the characterisation lemmas about `computeDistanceCore`. -/

/-- The effect of offering library entry `(libIdx, l)` to one query
profile, in the successful (non-panicking) case. -/
def stepQ (m : Dist) (libIdx : Nat) (l : AsoProfile) (q : AsoProfile) : AsoProfile :=
  if matchFilter q l then
    match distOf m q.seq l.seq with
    | some d => { q with aso_names := q.aso_names ++ [(libIdx, d)] }
    | none => q
  else q

/-- The effect on one query profile of the whole library loop over `lib`,
with library indices starting at `startIdx`. -/
def applyAllFrom (m : Dist) (startIdx : Nat) (lib : List AsoProfile) (q : AsoProfile) :
    AsoProfile :=
  (List.enumFrom startIdx lib).foldl (fun acc p => stepQ m p.1 p.2 acc) q

/-- The match-list entry contributed by the numbered library entry `p` to
query profile `q`, if any. -/
def matchEntry (m : Dist) (q : AsoProfile) (p : Nat × AsoProfile) : Option (Nat × Rat) :=
  if matchFilter q p.2 then (distOf m q.seq p.2.seq).map (fun d => (p.1, d)) else none

/-! ### Unfolding equations -/

theorem applyLib_nil (m : Dist) (libIdx : Nat) (l : AsoProfile) (qIdx : Nat) :
    applyLib m libIdx l qIdx [] = ([], Except.ok []) := rfl

theorem applyLib_cons (m : Dist) (libIdx : Nat) (l : AsoProfile) (qIdx : Nat)
    (q : AsoProfile) (rest : List AsoProfile) :
    applyLib m libIdx l qIdx (q :: rest) =
      if matchFilter q l then
        match distOf m q.seq l.seq with
        | some d =>
          ( Event.matched qIdx libIdx d :: (applyLib m libIdx l (qIdx + 1) rest).1
          , (applyLib m libIdx l (qIdx + 1) rest).2.map
              (fun rest2 => { q with aso_names := q.aso_names ++ [(libIdx, d)] } :: rest2) )
        | none => ([], Except.error EngineError.hammingPanic)
      else
        ( (applyLib m libIdx l (qIdx + 1) rest).1
        , (applyLib m libIdx l (qIdx + 1) rest).2.map (fun rest2 => q :: rest2) ) := rfl

theorem runLibrary_nil (m : Dist) (qs libAcc : List AsoProfile) :
    runLibrary m qs libAcc [] = ([], Except.ok (qs, libAcc)) := rfl

theorem runLibrary_cons (m : Dist) (qs libAcc : List AsoProfile) (row : Row)
    (rest : List Row) :
    runLibrary m qs libAcc (row :: rest) =
      match parseRow row with
      | Except.error e => ([], Except.error e)
      | Except.ok l =>
        match (applyLib m libAcc.length l 0 qs).2 with
        | Except.error e => ((applyLib m libAcc.length l 0 qs).1, Except.error e)
        | Except.ok qs2 =>
          ( (applyLib m libAcc.length l 0 qs).1 ++ (runLibrary m qs2 (libAcc ++ [l]) rest).1
          , (runLibrary m qs2 (libAcc ++ [l]) rest).2 ) := by
  show runLibrary m qs libAcc (row :: rest) = _
  rw [runLibrary]

theorem parseRows_nil : parseRows [] = Except.ok [] := rfl

theorem parseRows_cons (row : Row) (rest : List Row) :
    parseRows (row :: rest)
      = parseRow row >>= (fun p => parseRows rest >>= (fun ps => pure (p :: ps))) :=
  List.mapM_cons parseRow

/-! ### Field preservation -/

theorem stepQ_fields (m : Dist) (i : Nat) (l q : AsoProfile) :
    (stepQ m i l q).name = q.name ∧ (stepQ m i l q).seq = q.seq ∧
    (stepQ m i l q).aso_len = q.aso_len ∧ (stepQ m i l q).atgc = q.atgc := by
  unfold stepQ
  split
  · split
    · exact ⟨rfl, rfl, rfl, rfl⟩
    · exact ⟨rfl, rfl, rfl, rfl⟩
  · exact ⟨rfl, rfl, rfl, rfl⟩

theorem matchFilter_congr {q q2 : AsoProfile} (l : AsoProfile)
    (hs : q2.seq = q.seq) (hl : q2.aso_len = q.aso_len) (ha : q2.atgc = q.atgc) :
    matchFilter q2 l = matchFilter q l := by
  unfold matchFilter
  rw [hs, hl, ha]

theorem matchEntry_congr (m : Dist) {q q2 : AsoProfile}
    (hs : q2.seq = q.seq) (hl : q2.aso_len = q.aso_len) (ha : q2.atgc = q.atgc) :
    matchEntry m q2 = matchEntry m q := by
  funext p
  unfold matchEntry
  rw [matchFilter_congr p.2 hs hl ha, hs]

theorem applyAllFrom_nil (m : Dist) (start : Nat) (q : AsoProfile) :
    applyAllFrom m start [] q = q := rfl

theorem applyAllFrom_cons (m : Dist) (start : Nat) (l : AsoProfile)
    (lib : List AsoProfile) (q : AsoProfile) :
    applyAllFrom m start (l :: lib) q
      = applyAllFrom m (start + 1) lib (stepQ m start l q) := by
  unfold applyAllFrom
  rw [List.enumFrom_cons]
  rfl

theorem applyAllFrom_fields (m : Dist) (lib : List AsoProfile) :
    ∀ (start : Nat) (q : AsoProfile),
    (applyAllFrom m start lib q).name = q.name ∧
    (applyAllFrom m start lib q).seq = q.seq ∧
    (applyAllFrom m start lib q).aso_len = q.aso_len ∧
    (applyAllFrom m start lib q).atgc = q.atgc := by
  induction lib with
  | nil => intro start q; rw [applyAllFrom_nil]; exact ⟨rfl, rfl, rfl, rfl⟩
  | cons l lib ih =>
    intro start q
    rw [applyAllFrom_cons]
    obtain ⟨h1, h2, h3, h4⟩ := ih (start + 1) (stepQ m start l q)
    obtain ⟨g1, g2, g3, g4⟩ := stepQ_fields m start l q
    exact ⟨h1.trans g1, h2.trans g2, h3.trans g3, h4.trans g4⟩

theorem applyAllFrom_aso_names (m : Dist) (lib : List AsoProfile) :
    ∀ (start : Nat) (q : AsoProfile),
    (applyAllFrom m start lib q).aso_names
      = q.aso_names ++ (List.enumFrom start lib).filterMap (matchEntry m q) := by
  induction lib with
  | nil => intro start q; rw [applyAllFrom_nil]; simp
  | cons l lib ih =>
    intro start q
    rw [applyAllFrom_cons, List.enumFrom_cons, ih (start + 1) (stepQ m start l q)]
    obtain ⟨g1, g2, g3, g4⟩ := stepQ_fields m start l q
    rw [matchEntry_congr m g2 g3 g4, List.filterMap_cons]
    by_cases hf : matchFilter q l
    · cases hd : distOf m q.seq l.seq with
      | some d =>
        have hq : stepQ m start l q
            = { q with aso_names := q.aso_names ++ [(start, d)] } := by
          unfold stepQ; rw [if_pos hf, hd]
        have he : matchEntry m q (start, l) = some (start, d) := by
          unfold matchEntry
          show (if matchFilter q l then (distOf m q.seq l.seq).map (fun d => (start, d))
                else none) = some (start, d)
          rw [if_pos hf, hd]; rfl
        rw [hq, he]
        simp
      | none =>
        have hq : stepQ m start l q = q := by
          unfold stepQ; rw [if_pos hf, hd]
        have he : matchEntry m q (start, l) = none := by
          unfold matchEntry
          show (if matchFilter q l then (distOf m q.seq l.seq).map (fun d => (start, d))
                else none) = none
          rw [if_pos hf, hd]; rfl
        rw [hq, he]
    · have hq : stepQ m start l q = q := by unfold stepQ; rw [if_neg hf]
      have he : matchEntry m q (start, l) = none := by
        unfold matchEntry
        show (if matchFilter q l then (distOf m q.seq l.seq).map (fun d => (start, d))
              else none) = none
        rw [if_neg hf]
      rw [hq, he]

/-! ### Engine characterisation -/

theorem applyLib_ok_map (m : Dist) (libIdx : Nat) (l : AsoProfile) :
    ∀ (qs : List AsoProfile) (qIdx : Nat) (qs2 : List AsoProfile),
    (applyLib m libIdx l qIdx qs).2 = Except.ok qs2 →
    qs2 = qs.map (stepQ m libIdx l) := by
  intro qs
  induction qs with
  | nil =>
    intro qIdx qs2 h
    rw [applyLib_nil] at h
    simp only [List.map_nil]
    exact (Except.ok.injEq _ _ ▸ h).symm
  | cons q rest ih =>
    intro qIdx qs2 h
    rw [applyLib_cons] at h
    by_cases hf : matchFilter q l
    · rw [if_pos hf] at h
      cases hd : distOf m q.seq l.seq with
      | some d =>
        rw [hd] at h
        simp only [] at h
        cases hr : (applyLib m libIdx l (qIdx + 1) rest).2 with
        | error e => rw [hr] at h; simp [Except.map] at h
        | ok rest2 =>
          rw [hr] at h
          simp only [Except.map, Except.ok.injEq] at h
          rw [← h, ih (qIdx + 1) rest2 hr, List.map_cons]
          have : stepQ m libIdx l q
              = { q with aso_names := q.aso_names ++ [(libIdx, d)] } := by
            unfold stepQ; rw [if_pos hf, hd]
          rw [this]
      | none => rw [hd] at h; simp at h
    · rw [if_neg hf] at h
      simp only [] at h
      cases hr : (applyLib m libIdx l (qIdx + 1) rest).2 with
      | error e => rw [hr] at h; simp [Except.map] at h
      | ok rest2 =>
        rw [hr] at h
        simp only [Except.map, Except.ok.injEq] at h
        rw [← h, ih (qIdx + 1) rest2 hr, List.map_cons]
        have : stepQ m libIdx l q = q := by unfold stepQ; rw [if_neg hf]
        rw [this]

theorem applyLib_ok_of (m : Dist) (libIdx : Nat) (l : AsoProfile) :
    ∀ (qs : List AsoProfile) (qIdx : Nat),
    (∀ q ∈ qs, matchFilter q l = true → distOf m q.seq l.seq ≠ none) →
    ∃ qs2, (applyLib m libIdx l qIdx qs).2 = Except.ok qs2 := by
  intro qs
  induction qs with
  | nil => intro qIdx _; exact ⟨[], rfl⟩
  | cons q rest ih =>
    intro qIdx hall
    obtain ⟨rest2, hr⟩ := ih (qIdx + 1) (fun p hp => hall p (List.mem_cons_of_mem _ hp))
    rw [applyLib_cons]
    by_cases hf : matchFilter q l
    · cases hd : distOf m q.seq l.seq with
      | some d =>
        rw [if_pos hf]
        refine ⟨{ q with aso_names := q.aso_names ++ [(libIdx, d)] } :: rest2, ?_⟩
        show Except.map
            (fun rest2 => { q with aso_names := q.aso_names ++ [(libIdx, d)] } :: rest2)
            (applyLib m libIdx l (qIdx + 1) rest).2 = _
        rw [hr]
        rfl
      | none => exact absurd hd (hall q (List.mem_cons_self _ _) hf)
    · rw [if_neg hf]
      refine ⟨q :: rest2, ?_⟩
      show Except.map (fun rest2 => q :: rest2) (applyLib m libIdx l (qIdx + 1) rest).2 = _
      rw [hr]
      rfl

theorem runLibrary_ok (m : Dist) :
    ∀ (lrows : List Row) (qs libAcc : List AsoProfile) (tr : List Event)
      (qsF libF : List AsoProfile),
    runLibrary m qs libAcc lrows = (tr, Except.ok (qsF, libF)) →
    ∃ parsed, parseRows lrows = Except.ok parsed ∧
      libF = libAcc ++ parsed ∧
      qsF = qs.map (applyAllFrom m libAcc.length parsed) := by
  intro lrows
  induction lrows with
  | nil =>
    intro qs libAcc tr qsF libF h
    rw [runLibrary_nil] at h
    simp only [Prod.mk.injEq, Except.ok.injEq] at h
    refine ⟨[], parseRows_nil, by rw [← h.2.2]; simp, ?_⟩
    rw [← h.2.1]
    have : ∀ p ∈ qs, applyAllFrom m libAcc.length [] p = p :=
      fun p _ => applyAllFrom_nil m _ p
    rw [List.map_congr_left this, List.map_id']
  | cons row rest ih =>
    intro qs libAcc tr qsF libF h
    rw [runLibrary_cons] at h
    cases hpr : parseRow row with
    | error e => rw [hpr] at h; simp at h
    | ok l =>
      rw [hpr] at h
      dsimp only at h
      cases hr : (applyLib m libAcc.length l 0 qs).2 with
      | error e => rw [hr] at h; simp at h
      | ok qs2 =>
        rw [hr] at h
        dsimp only at h
        simp only [Prod.mk.injEq] at h
        obtain ⟨parsed, hp, hlib, hqs⟩ :=
          ih qs2 (libAcc ++ [l]) (runLibrary m qs2 (libAcc ++ [l]) rest).1 qsF libF
            (by rw [← h.2])
        refine ⟨l :: parsed, ?_, ?_, ?_⟩
        · rw [parseRows_cons, hpr, hp]
          rfl
        · rw [hlib]
          simp
        · rw [hqs, applyLib_ok_map m libAcc.length l qs 0 qs2 hr, List.map_map]
          refine List.map_congr_left (fun p _ => ?_)
          show applyAllFrom m (libAcc ++ [l]).length parsed (stepQ m libAcc.length l p)
              = applyAllFrom m libAcc.length (l :: parsed) p
          rw [applyAllFrom_cons]
          simp

theorem parseRows_ok_map :
    ∀ (rows : List Row) (ps : List AsoProfile), parseRows rows = Except.ok ps →
    (∀ row ∈ rows, 2 ≤ List.length row) ∧
    ps = rows.map (fun row => AsoProfile.new (List.getD row 0 []) (List.getD row 1 [])) := by
  intro rows
  induction rows with
  | nil =>
    intro ps h
    rw [parseRows_nil] at h
    simp only [Except.ok.injEq] at h
    exact ⟨by simp, by simp [← h]⟩
  | cons row rest ih =>
    intro ps h
    rw [parseRows_cons] at h
    cases hpr : parseRow row with
    | error e => rw [hpr] at h; simp [Bind.bind, Except.bind] at h
    | ok p =>
      rw [hpr] at h
      cases hrest : parseRows rest with
      | error e => rw [hrest] at h; simp [Bind.bind, Except.bind] at h
      | ok ps2 =>
        rw [hrest] at h
        simp only [Bind.bind, Except.bind, pure, Except.pure, Except.ok.injEq] at h
        obtain ⟨hlen, hmap⟩ := ih ps2 hrest
        have hrow : ¬ List.length row < 2 := by
          intro hlt
          unfold parseRow at hpr
          rw [if_pos hlt] at hpr
          exact Except.noConfusion hpr
        have hval : p = AsoProfile.new (List.getD row 0 []) (List.getD row 1 []) := by
          unfold parseRow at hpr
          rw [if_neg hrow] at hpr
          exact (Except.ok.injEq _ _ ▸ hpr).symm
        constructor
        · intro r hr
          rcases List.mem_cons.mp hr with h1 | h1
          · rw [h1]; omega
          · exact hlen r h1
        · rw [← h, List.map_cons, ← hmap, hval]

theorem parseRows_ok_of :
    ∀ (rows : List Row), (∀ row ∈ rows, 2 ≤ List.length row) →
    parseRows rows
      = Except.ok (rows.map (fun row =>
          AsoProfile.new (List.getD row 0 []) (List.getD row 1 []))) := by
  intro rows
  induction rows with
  | nil => intro _; exact parseRows_nil
  | cons row rest ih =>
    intro hall
    rw [parseRows_cons, ih (fun r hr => hall r (List.mem_cons_of_mem _ hr))]
    have hrow : ¬ List.length row < 2 := by
      have := hall row (List.mem_cons_self _ _)
      omega
    unfold parseRow
    rw [if_neg hrow]
    rfl

theorem core_ok (m : Dist) (qrows lrows : List Row) (tr : List Event)
    (qs lib : List AsoProfile)
    (h : computeDistanceCore m qrows lrows = (tr, Except.ok (qs, lib))) :
    ∃ qs0, parseRows qrows = Except.ok qs0 ∧ parseRows lrows = Except.ok lib ∧
      qs = qs0.map (applyAllFrom m 0 lib) := by
  unfold computeDistanceCore at h
  cases hq : parseRows qrows with
  | error e => rw [hq] at h; simp at h
  | ok qs0 =>
    rw [hq] at h
    obtain ⟨parsed, hp, hlib, hqs⟩ := runLibrary_ok m lrows qs0 [] tr qs lib h
    simp only [List.nil_append] at hlib
    subst hlib
    exact ⟨qs0, rfl, hp, hqs⟩

/-! ### The computed match list, described -/

theorem matchEntry_fst {m : Dist} {q : AsoProfile} {p : Nat × AsoProfile}
    {e : Nat × Rat} (h : matchEntry m q p = some e) : e.1 = p.1 := by
  unfold matchEntry at h
  by_cases hf : matchFilter q p.2
  · rw [if_pos hf] at h
    cases hd : distOf m q.seq p.2.seq with
    | some d0 =>
      rw [hd] at h
      have h2 : ((p.1, d0) : Nat × Rat) = e := Option.some.inj h
      rw [← h2]
    | none => rw [hd] at h; simp at h
  · rw [if_neg hf] at h; simp at h

theorem mem_matchList (m : Dist) (q : AsoProfile) (lib : List AsoProfile)
    (i : Nat) (d : Rat) :
    ((i, d) ∈ (List.enumFrom 0 lib).filterMap (matchEntry m q)) ↔
      (i < lib.length ∧ matchFilter q (List.getD lib i dflt) = true ∧
       distOf m q.seq (List.getD lib i dflt).seq = some d) := by
  rw [List.mem_filterMap]
  constructor
  · rintro ⟨⟨j, a⟩, hmem, hme⟩
    obtain ⟨-, hlt, ha⟩ := List.mem_enumFrom hmem
    have hj : j = i := (matchEntry_fst hme).symm
    subst hj
    have hlt2 : j < lib.length := by omega
    have hgd : List.getD lib j dflt = a := by
      rw [List.getD_eq_getElem lib dflt hlt2]
      exact ha.symm
    unfold matchEntry at hme
    by_cases hf : matchFilter q a
    · rw [if_pos hf] at hme
      refine ⟨hlt2, by rw [hgd]; exact hf, ?_⟩
      rw [hgd]
      cases hd : distOf m q.seq a.seq with
      | some d0 =>
        rw [hd] at hme
        have h2 : ((j, d0) : Nat × Rat) = (j, d) := Option.some.inj hme
        have h3 : d0 = d := congrArg Prod.snd h2
        exact congrArg some h3
      | none => rw [hd] at hme; simp at hme
    · rw [if_neg hf] at hme; simp at hme
  · rintro ⟨hi, hf, hd⟩
    have hlen : i < (List.enumFrom 0 lib).length := by
      rw [List.enumFrom_length]; exact hi
    refine ⟨(List.enumFrom 0 lib)[i], List.getElem_mem hlen, ?_⟩
    rw [List.getElem_enumFrom]
    rw [List.getD_eq_getElem lib dflt hi] at hf hd
    unfold matchEntry
    show (if matchFilter q lib[i] then
        (distOf m q.seq lib[i].seq).map (fun d => (0 + i, d)) else none) = some (i, d)
    rw [if_pos hf, hd]
    simp

theorem pairwise_fst_lt_enumFrom {α : Type} (n : Nat) (l : List α) :
    List.Pairwise (fun a b : Nat × α => a.1 < b.1) (List.enumFrom n l) := by
  induction l generalizing n with
  | nil => simp
  | cons x xs ih =>
    rw [List.enumFrom_cons]
    refine List.Pairwise.cons ?_ (ih (n + 1))
    rintro ⟨j, a⟩ hb
    obtain ⟨h1, -, -⟩ := List.mem_enumFrom hb
    show n < j
    omega

theorem matchList_pairwise (m : Dist) (q : AsoProfile) (lib : List AsoProfile) :
    List.Pairwise (fun a b : Nat × Rat => a.1 < b.1)
      ((List.enumFrom 0 lib).filterMap (matchEntry m q)) := by
  rw [List.pairwise_filterMap]
  refine (pairwise_fst_lt_enumFrom 0 lib).imp ?_
  intro a b hab x hx y hy
  have hx1 : x.1 = a.1 := matchEntry_fst hx
  have hy1 : y.1 = b.1 := matchEntry_fst hy
  rw [hx1, hy1]
  exact hab

/-! ### ASCII sequences and byte lengths -/

theorem utf8Size_ascii {c : Char} (h : c.toNat ≤ 127) : c.utf8Size = 1 := by
  unfold Char.utf8Size
  have hv : c.val ≤ UInt32.ofNatCore 127 (by norm_num) := by
    rw [UInt32.le_def]
    exact_mod_cast h
  rw [if_pos hv]

theorem strBytes_ascii {s : List Char} (h : ∀ c ∈ s, c.toNat ≤ 127) :
    strBytes s = s.length := by
  induction s with
  | nil => rfl
  | cons c s ih =>
    have hc : c.utf8Size = 1 := utf8Size_ascii (h c (List.mem_cons_self _ _))
    have hs := ih (fun x hx => h x (List.mem_cons_of_mem _ hx))
    simp only [strBytes, List.map_cons, List.sum_cons, hc, List.length_cons]
    simp only [strBytes] at hs
    omega

theorem utf8Size_pos (c : Char) : 1 ≤ c.utf8Size := by
  unfold Char.utf8Size
  dsimp only
  split
  · omega
  · split
    · omega
    · split <;> omega

theorem strBytes_eq_zero {s : List Char} : strBytes s = 0 ↔ s = [] := by
  cases s with
  | nil => simp [strBytes]
  | cons c s =>
    simp only [strBytes, List.map_cons, List.sum_cons]
    have := utf8Size_pos c
    constructor
    · intro h; omega
    · intro h; exact List.noConfusion h

theorem hamming_ne_none_of_len {a b : List Char} (h : a.length = b.length) :
    hamming a b ≠ none := by
  unfold hamming
  rw [if_pos h]
  exact Option.noConfusion

/-! ### The metrics on identical operands -/

theorem mem_zip_self {a b : Char} : ∀ {s : List Char}, (a, b) ∈ s.zip s → a = b := by
  intro s
  induction s with
  | nil => intro h; simp at h
  | cons c s ih =>
    intro h
    rw [List.zip_cons_cons, List.mem_cons] at h
    rcases h with h | h
    · injection h with h1 h2
      rw [h1, h2]
    · exact ih h

theorem hamming_self (s : List Char) : hamming s s = some 0 := by
  unfold hamming
  rw [if_pos rfl]
  have hnil : (s.zip s).filter (fun p => decide (¬ p.1 = p.2)) = [] := by
    rw [List.filter_eq_nil_iff]
    rintro ⟨a, b⟩ hab
    have hab2 : a = b := mem_zip_self hab
    simp [hab2]
  rw [hnil]
  rfl

theorem levenshtein_self (s : List Char) : levenshtein s s = 0 := by
  induction s with
  | nil => simp [levenshtein]
  | cons c s ih => simp [levenshtein, ih]

theorem sift3_loop_self (s : List Char) :
    ∀ (fuel c lcs : Nat), s.length - c = fuel →
    sift3_loop s s fuel c 0 0 lcs = lcs + fuel := by
  intro fuel
  induction fuel with
  | zero => intro c lcs h; rfl
  | succ fuel ih =>
    intro c lcs h
    have hc : c < s.length := by omega
    rw [sift3_loop]
    rw [if_pos ⟨by omega, by omega⟩, if_pos rfl]
    rw [ih (c + 1) (lcs + 1) (by omega)]
    omega

theorem sift3_self (s : List Char) : sift3 s s = 0 := by
  unfold sift3
  by_cases hs : s.isEmpty
  · rw [if_pos hs]
    rw [List.isEmpty_iff] at hs
    rw [hs]
    simp
  · rw [if_neg hs, if_neg hs]
    rw [sift3_loop_self s s.length 0 0 (by omega)]
    push_cast
    ring

/-! ### Row parsing, described -/

theorem parseRow_ok {row : Row} {p : AsoProfile} (h : parseRow row = Except.ok p) :
    p = AsoProfile.new (List.getD row 0 []) (List.getD row 1 []) ∧ 2 ≤ List.length row := by
  unfold parseRow at h
  by_cases h2 : List.length row < 2
  · rw [if_pos h2] at h
    exact Except.noConfusion h
  · rw [if_neg h2] at h
    exact ⟨(Except.ok.inj h).symm, by omega⟩

theorem parseRow_error {row : Row} {e : EngineError} (h : parseRow row = Except.error e) :
    e = EngineError.malformedRow ∧ List.length row < 2 := by
  unfold parseRow at h
  by_cases h2 : List.length row < 2
  · rw [if_pos h2] at h
    exact ⟨(Except.error.inj h).symm, h2⟩
  · rw [if_neg h2] at h
    exact Except.noConfusion h

theorem parseRows_error :
    ∀ (rows : List Row) (e : EngineError), parseRows rows = Except.error e →
    e = EngineError.malformedRow ∧ ∃ row ∈ rows, List.length row < 2 := by
  intro rows
  induction rows with
  | nil => intro e h; rw [parseRows_nil] at h; exact Except.noConfusion h
  | cons row rest ih =>
    intro e h
    rw [parseRows_cons] at h
    cases hpr : parseRow row with
    | error e2 =>
      rw [hpr] at h
      have he : e2 = e := by
        simp only [Bind.bind, Except.bind] at h
        exact Except.error.inj h
      obtain ⟨h1, h2⟩ := parseRow_error hpr
      exact ⟨he ▸ h1, row, List.mem_cons_self _ _, h2⟩
    | ok p =>
      rw [hpr] at h
      cases hrest : parseRows rest with
      | error e2 =>
        rw [hrest] at h
        have he : e2 = e := by
          simp only [Bind.bind, Except.bind] at h
          exact Except.error.inj h
        obtain ⟨h1, r, hr, h2⟩ := ih e2 hrest
        exact ⟨he ▸ h1, r, List.mem_cons_of_mem _ hr, h2⟩
      | ok ps =>
        rw [hrest] at h
        simp only [Bind.bind, Except.bind, pure, Except.pure] at h
        exact Except.noConfusion h

theorem parseRows_error_of_short :
    ∀ (rows : List Row), (∃ row ∈ rows, List.length row < 2) →
    ∃ e, parseRows rows = Except.error e := by
  intro rows h
  cases hp : parseRows rows with
  | error e => exact ⟨e, rfl⟩
  | ok ps =>
    obtain ⟨row, hmem, hlen⟩ := h
    have := (parseRows_ok_map rows ps hp).1 row hmem
    omega

/-! ### Absence of the Hamming panic on ASCII input -/

theorem matchFilter_eq_true {q l : AsoProfile} :
    matchFilter q l = true ↔
      (q.aso_len = l.aso_len ∧ q.atgc = l.atgc ∧ ¬ q.seq = l.seq) := by
  unfold matchFilter
  simp [Bool.and_eq_true, beq_iff_eq, and_assoc]

theorem distOf_hamming_ne_none {a b : List Char} (h : a.length = b.length) :
    distOf Dist.Hamming a b ≠ none := by
  show (hamming a b).map (fun n => (n : Rat)) ≠ none
  cases hh : hamming a b with
  | some n => simp
  | none => exact absurd hh (hamming_ne_none_of_len h)

theorem runLibrary_no_panic :
    ∀ (lrows : List Row) (qs libAcc : List AsoProfile),
    (∀ q ∈ qs, q.aso_len = strBytes q.seq ∧ (∀ c ∈ q.seq, c.toNat ≤ 127)) →
    (∀ row ∈ lrows, ∀ c ∈ List.getD row 1 [], c.toNat ≤ 127) →
    (runLibrary Dist.Hamming qs libAcc lrows).2 ≠ Except.error EngineError.hammingPanic := by
  intro lrows
  induction lrows with
  | nil =>
    intro qs libAcc _ _
    rw [runLibrary_nil]
    simp
  | cons row rest ih =>
    intro qs libAcc hq hl
    rw [runLibrary_cons]
    cases hpr : parseRow row with
    | error e =>
      dsimp only
      obtain ⟨he, -⟩ := parseRow_error hpr
      subst he
      intro hcon
      exact EngineError.noConfusion (Except.error.inj hcon)
    | ok l =>
      dsimp only
      obtain ⟨hleq, hrlen⟩ := parseRow_ok hpr
      have hlseq : l.seq = List.getD row 1 [] := by rw [hleq]; rfl
      have hllen : l.aso_len = strBytes l.seq := by rw [hleq]; rfl
      have hsome : ∀ q ∈ qs, matchFilter q l = true →
          distOf Dist.Hamming q.seq l.seq ≠ none := by
        intro q hqmem hf
        obtain ⟨hqlen, hqascii⟩ := hq q hqmem
        obtain ⟨hflen, -, -⟩ := matchFilter_eq_true.mp hf
        have hlascii : ∀ c ∈ l.seq, c.toNat ≤ 127 := by
          rw [hlseq]
          exact hl row (List.mem_cons_self _ _)
        have hlen : q.seq.length = l.seq.length := by
          rw [← strBytes_ascii hqascii, ← strBytes_ascii hlascii, ← hqlen, ← hllen, hflen]
        exact distOf_hamming_ne_none hlen
      obtain ⟨qs2, hok⟩ := applyLib_ok_of Dist.Hamming libAcc.length l qs 0 hsome
      rw [hok]
      dsimp only
      refine ih qs2 (libAcc ++ [l]) ?_ (fun r hr => hl r (List.mem_cons_of_mem _ hr))
      intro q2 hq2
      rw [applyLib_ok_map Dist.Hamming libAcc.length l qs 0 qs2 hok] at hq2
      obtain ⟨q, hqmem, hqeq⟩ := List.mem_map.mp hq2
      obtain ⟨-, g2, g3, -⟩ := stepQ_fields Dist.Hamming libAcc.length l q
      obtain ⟨ha, hb⟩ := hq q hqmem
      subst hqeq
      constructor
      · rw [g3, g2, ha]
      · rw [g2]
        exact hb

/-! ### Uniqueness of sort outcomes when distances are distinct -/

theorem sortOutcome_sorted {r out : List (Nat × Rat)} (h : IsSortOutcome r out) :
    List.Sorted (fun a b : Nat × Rat => a.2 ≤ b.2) out := h.2

theorem sortOutcome_unique {r out1 out2 : List (Nat × Rat)}
    (hd : List.Pairwise (fun a b : Nat × Rat => ¬ a.2 = b.2) r)
    (h1 : IsSortOutcome r out1) (h2 : IsSortOutcome r out2) : out1 = out2 := by
  obtain ⟨hp1, hs1⟩ := h1
  obtain ⟨hp2, hs2⟩ := h2
  have hsymm : ∀ {x y : Nat × Rat}, ¬ x.2 = y.2 → ¬ y.2 = x.2 :=
    fun h e => h e.symm
  have hne1 : List.Pairwise (fun a b : Nat × Rat => ¬ a.2 = b.2) out1 :=
    (hp1.pairwise_iff hsymm).mp hd
  have hne2 : List.Pairwise (fun a b : Nat × Rat => ¬ a.2 = b.2) out2 :=
    (hp2.pairwise_iff hsymm).mp hd
  have hlt1 : List.Pairwise (fun a b : Nat × Rat => a.2 < b.2) out1 :=
    (List.Pairwise.and hs1 hne1).imp (fun h => lt_of_le_of_ne h.1 h.2)
  have hlt2 : List.Pairwise (fun a b : Nat × Rat => a.2 < b.2) out2 :=
    (List.Pairwise.and hs2 hne2).imp (fun h => lt_of_le_of_ne h.1 h.2)
  haveI : IsAntisymm (Nat × Rat) (fun a b : Nat × Rat => a.2 < b.2) :=
    ⟨fun a b h h2 => absurd (lt_trans h h2) (lt_irrefl _)⟩
  exact List.eq_of_perm_of_sorted (hp1.symm.trans hp2) hlt1 hlt2

/-! ### Composition counting, described -/

theorem char_windows_cons_one (a : Char) (t : List Char) :
    char_windows (a :: t) 1 = [a] :: char_windows t 1 := by
  unfold char_windows
  rw [List.length_cons, List.range_succ_eq_map, List.filterMap_cons, List.filterMap_map]
  have h0 : 0 + 1 ≤ t.length + 1 := by omega
  rw [if_pos h0]
  dsimp only
  have hfun : ((fun i =>
        if i + 1 ≤ t.length + 1 then some (List.take 1 (List.drop i (a :: t))) else none)
        ∘ Nat.succ)
      = (fun i => if i + 1 ≤ t.length then some (List.take 1 (List.drop i t)) else none) := by
    funext i
    show (if i + 1 + 1 ≤ t.length + 1 then some (List.take 1 (List.drop (i + 1) (a :: t)))
          else none)
        = (if i + 1 ≤ t.length then some (List.take 1 (List.drop i t)) else none)
    by_cases h : i + 1 ≤ t.length
    · rw [if_pos (by omega : i + 1 + 1 ≤ t.length + 1), if_pos h, List.drop_succ_cons]
    · rw [if_neg (by omega : ¬ i + 1 + 1 ≤ t.length + 1), if_neg h]
  rw [hfun]
  rfl

theorem char_windows_one : ∀ (s : List Char), char_windows s 1 = s.map (fun c => [c]) := by
  intro s
  induction s with
  | nil => rfl
  | cons a t ih => rw [char_windows_cons_one, ih, List.map_cons]

theorem count_singleton_windows (s : List Char) (x : Char) :
    ((s.map (fun c => [c])).filter (fun c => c = [x])).length = s.count x := by
  induction s with
  | nil => rfl
  | cons c s ih =>
    rw [List.map_cons, List.filter_cons, List.count_cons]
    by_cases h : c = x
    · subst h
      simp [ih]
    · simp [h, ih]

theorem atgc_count_eq_counts (s : List Char) :
    atgc_count s = (s.count 'A', s.count 'T', s.count 'G', s.count 'C') := by
  unfold atgc_count
  rw [char_windows_one]
  rw [count_singleton_windows s 'A', count_singleton_windows s 'T',
      count_singleton_windows s 'G', count_singleton_windows s 'C']

/-! ### Miscellaneous helpers -/

theorem getD_map_profile {β : Type} (f : β → AsoProfile) (l : List β) (i : Nat)
    (hi : i < l.length) (d0 : β) :
    List.getD (l.map f) i dflt = f (List.getD l i d0) := by
  have hi2 : i < (l.map f).length := by simpa using hi
  rw [List.getD_eq_getElem _ _ hi2, List.getElem_map, List.getD_eq_getElem _ _ hi]

theorem countP_le_one_of_pairwise_lt {l : List (Nat × Rat)} (k : Nat)
    (h : List.Pairwise (fun a b : Nat × Rat => a.1 < b.1) l) :
    List.countP (fun e : Nat × Rat => e.1 == k) l ≤ 1 := by
  induction l with
  | nil => simp
  | cons a l ih =>
    rw [List.countP_cons]
    rcases List.pairwise_cons.mp h with ⟨ha, hl⟩
    by_cases hk : a.1 = k
    · have hz : List.countP (fun e : Nat × Rat => e.1 == k) l = 0 := by
        rw [List.countP_eq_zero]
        intro b hb
        have hab := ha b hb
        simp only [beq_iff_eq]
        omega
      rw [hz]
      split <;> omega
    · have hfalse : (a.1 == k) = false := by
        simp only [beq_eq_false_iff_ne, ne_eq]
        exact hk
      rw [hfalse]
      simpa using ih hl

/-! ## The claims -/

/-- C4 counterexample: the claim's example value is wrong on the code:
`atgc_count` of "AATX" is (2, 1, 0, 0) — the T is counted — not
(2, 0, 0, 0). -/
theorem C4_counterexample : ¬ atgc_count ("AATX".toList) = (2, 0, 0, 0) := by decide

/-- C4 (amended): for every sequence, the composition 4-tuple counts exactly
the occurrences of the characters A, T, G, C, matched case-sensitively with
no normalization, silently ignoring every other character; in particular
`atgc_count "AATX" = (2, 1, 0, 0)`. -/
theorem C4_composition_counts (seq : List Char) :
    atgc_count seq = (seq.count 'A', seq.count 'T', seq.count 'G', seq.count 'C')
      ∧ atgc_count ("AATX".toList) = (2, 1, 0, 0) :=
  ⟨atgc_count_eq_counts seq, by decide⟩

/-- C5 counterexample: the stored length is the UTF-8 byte count
(`seq.len()` in Rust), not the character count: for the one-character
sequence "é" the stored length is 2 while the character count is 1. -/
theorem C5_counterexample :
    ¬ (AsoProfile.new [] ("é".toList)).aso_len = ("é".toList).length := by decide

/-- C5 (amended): the stored length field equals the UTF-8 byte count of
the sequence string; for ASCII sequences (in particular pure A/T/G/C
sequences) this coincides with the character count, but not for sequences
containing non-ASCII characters. -/
theorem C5_length_is_bytes (name seq : List Char) :
    (AsoProfile.new name seq).aso_len = strBytes seq ∧
    ((∀ c ∈ seq, c.toNat ≤ 127) → (AsoProfile.new name seq).aso_len = seq.length) :=
  ⟨rfl, fun h => strBytes_ascii h⟩

/-- C5 witness: the amended statement applied to the ASCII sequence "AT". -/
theorem C5_length_is_bytes_witness :
    (AsoProfile.new [] ("AT".toList)).aso_len = ("AT".toList).length :=
  (C5_length_is_bytes [] ("AT".toList)).2 (by decide)

/-- C7: each of the three metrics returns 0 on identical operands:
Hamming succeeds with count 0, Levenshtein is 0, sift3 is 0. -/
theorem C7_metrics_zero_on_self (s : List Char) :
    hamming s s = some 0 ∧ levenshtein s s = 0 ∧ sift3 s s = 0 :=
  ⟨hamming_self s, levenshtein_self s, sift3_self s⟩

/-- C1: in a completed run, an entry `(libIdx, d)` is in query `i`'s match
list iff `libIdx` is a library entry whose stored length and composition
equal the query's and whose sequence differs from the query's, and then
`d` is exactly the selected metric applied to the two sequences; a pair
failing the filter contributes no entry. -/
theorem C1_match_list_iff (m : Dist) (qrows lrows : List Row) (tr : List Event)
    (qs lib : List AsoProfile)
    (h : computeDistanceCore m qrows lrows = (tr, Except.ok (qs, lib)))
    (i : Nat) (hi : i < qs.length) (libIdx : Nat) (d : Rat) :
    ((libIdx, d) ∈ (List.getD qs i dflt).aso_names ↔
      (libIdx < lib.length ∧
       (List.getD qs i dflt).aso_len = (List.getD lib libIdx dflt).aso_len ∧
       (List.getD qs i dflt).atgc = (List.getD lib libIdx dflt).atgc ∧
       ¬ (List.getD qs i dflt).seq = (List.getD lib libIdx dflt).seq ∧
       distOf m (List.getD qs i dflt).seq (List.getD lib libIdx dflt).seq = some d)) := by
  obtain ⟨qs0, hq, hl, hmap⟩ := core_ok m qrows lrows tr qs lib h
  have hlen0 : i < qs0.length := by
    rw [hmap] at hi
    simpa using hi
  have hqi : List.getD qs i dflt = applyAllFrom m 0 lib (List.getD qs0 i dflt) := by
    rw [hmap]
    exact getD_map_profile _ qs0 i hlen0 dflt
  obtain ⟨-, hs, hL, hA⟩ := applyAllFrom_fields m lib 0 (List.getD qs0 i dflt)
  have hq0names : (List.getD qs0 i dflt).aso_names = [] := by
    obtain ⟨-, hqs0⟩ := parseRows_ok_map qrows qs0 hq
    have hlenr : i < qrows.length := by
      rw [hqs0] at hlen0
      simpa using hlen0
    rw [hqs0, getD_map_profile _ qrows i hlenr []]
    rfl
  have hnames : (List.getD qs i dflt).aso_names
      = (List.enumFrom 0 lib).filterMap (matchEntry m (List.getD qs0 i dflt)) := by
    rw [hqi, applyAllFrom_aso_names, hq0names, List.nil_append]
  rw [hnames, mem_matchList]
  constructor
  · rintro ⟨h1, h2, h3⟩
    obtain ⟨hf1, hf2, hf3⟩ := matchFilter_eq_true.mp h2
    refine ⟨h1, ?_, ?_, ?_, ?_⟩
    · rw [hqi, hL]; exact hf1
    · rw [hqi, hA]; exact hf2
    · rw [hqi, hs]; exact hf3
    · rw [hqi, hs]; exact h3
  · rintro ⟨h1, h2, h3, h4, h5⟩
    rw [hqi, hL] at h2
    rw [hqi, hA] at h3
    rw [hqi, hs] at h4 h5
    exact ⟨h1, matchFilter_eq_true.mpr ⟨h2, h3, h4⟩, h5⟩

/-- C1 witness: the end-to-end scenario with query ("q1", "AATA") and
library ("libA", "AAAT") under Hamming: the pair passes the filter and the
entry (0, 2) is in the query's match list, by the C1 characterisation. -/
theorem C1_match_list_iff_witness :
    (0, (2 : Rat)) ∈
      (List.getD [AsoProfile.mk ("q1".toList) ("AATA".toList) 4 (3, 1, 0, 0) [(0, 2)]]
        0 dflt).aso_names :=
  (C1_match_list_iff Dist.Hamming [["q1".toList, "AATA".toList]]
      [["libA".toList, "AAAT".toList]]
      [Event.matched 0 0 2]
      [AsoProfile.mk ("q1".toList) ("AATA".toList) 4 (3, 1, 0, 0) [(0, 2)]]
      [AsoProfile.mk ("libA".toList) ("AAAT".toList) 4 (3, 1, 0, 0) []]
      (by decide) 0 (by decide) 0 2).mpr
    ⟨by decide, by decide, by decide, by decide, by decide⟩

/-- C9: in a completed run, a query whose sequence is the empty string has
an empty match list: an empty-sequence library entry is textually identical
and a non-empty one has positive byte length. -/
theorem C9_empty_query_no_matches (m : Dist) (qrows lrows : List Row) (tr : List Event)
    (qs lib : List AsoProfile)
    (h : computeDistanceCore m qrows lrows = (tr, Except.ok (qs, lib)))
    (i : Nat) (hi : i < qs.length)
    (hempty : (List.getD qs i dflt).seq = []) :
    (List.getD qs i dflt).aso_names = [] := by
  obtain ⟨qs0, hq, hl, hmap⟩ := core_ok m qrows lrows tr qs lib h
  have hlen0 : i < qs0.length := by
    rw [hmap] at hi
    simpa using hi
  have hqi : List.getD qs i dflt = applyAllFrom m 0 lib (List.getD qs0 i dflt) := by
    rw [hmap]
    exact getD_map_profile _ qs0 i hlen0 dflt
  obtain ⟨-, hs, -, -⟩ := applyAllFrom_fields m lib 0 (List.getD qs0 i dflt)
  have hq0seq : (List.getD qs0 i dflt).seq = [] := by
    rw [hqi, hs] at hempty
    exact hempty
  have hq0new : (List.getD qs0 i dflt).aso_len = strBytes (List.getD qs0 i dflt).seq ∧
      (List.getD qs0 i dflt).aso_names = [] := by
    obtain ⟨-, hqs0⟩ := parseRows_ok_map qrows qs0 hq
    have hlenr : i < qrows.length := by
      rw [hqs0] at hlen0
      simpa using hlen0
    rw [hqs0, getD_map_profile _ qrows i hlenr []]
    exact ⟨rfl, rfl⟩
  have hlib : ∀ l ∈ lib, l.aso_len = strBytes l.seq := by
    obtain ⟨-, hlib0⟩ := parseRows_ok_map lrows lib hl
    intro l hlmem
    rw [hlib0] at hlmem
    obtain ⟨row, -, hrow⟩ := List.mem_map.mp hlmem
    rw [← hrow]
    rfl
  rw [hqi, applyAllFrom_aso_names, hq0new.2, List.nil_append]
  rw [List.filterMap_eq_nil_iff]
  rintro ⟨j, a⟩ hmem
  obtain ⟨-, hlt, ha⟩ := List.mem_enumFrom hmem
  have hamem : a ∈ lib := by
    rw [ha]
    exact List.getElem_mem _
  unfold matchEntry
  rw [if_neg]
  intro hf
  obtain ⟨hflen, -, hfne⟩ := matchFilter_eq_true.mp hf
  have hq0len : (List.getD qs0 i dflt).aso_len = 0 := by
    rw [hq0new.1, hq0seq]
    rfl
  have halen : strBytes a.seq = 0 := by
    rw [← hlib a hamem, ← hflen, hq0len]
  have haseq : a.seq = [] := strBytes_eq_zero.mp halen
  exact hfne (by rw [hq0seq, haseq])

/-- C9 witness: a run with an empty query sequence against a library entry
"AT": the query's final match list is empty. -/
theorem C9_empty_query_no_matches_witness :
    (List.getD [AsoProfile.mk ("q".toList) [] 0 (0, 0, 0, 0) []] 0 dflt).aso_names = [] :=
  C9_empty_query_no_matches Dist.Hamming [["q".toList, []]] [["l".toList, "AT".toList]]
    [] [AsoProfile.mk ("q".toList) [] 0 (0, 0, 0, 0) []]
    [AsoProfile.mk ("l".toList) ("AT".toList) 2 (1, 1, 0, 0) []]
    (by decide) 0 (by decide) (by decide)

/-- C10: in a completed run, each query's match list references each library
entry object (identified by its index in the library vector; a duplicated
library row yields a distinct object with a distinct index) at most once:
the referenced indices are strictly increasing, so any fixed index occurs
at most once. -/
theorem C10_each_library_entry_at_most_once (m : Dist) (qrows lrows : List Row)
    (tr : List Event) (qs lib : List AsoProfile)
    (h : computeDistanceCore m qrows lrows = (tr, Except.ok (qs, lib)))
    (i : Nat) (hi : i < qs.length) :
    List.Pairwise (fun a b : Nat × Rat => a.1 < b.1) (List.getD qs i dflt).aso_names ∧
    (∀ libIdx : Nat,
      List.countP (fun e : Nat × Rat => e.1 == libIdx)
        (List.getD qs i dflt).aso_names ≤ 1) := by
  obtain ⟨qs0, hq, hl, hmap⟩ := core_ok m qrows lrows tr qs lib h
  have hlen0 : i < qs0.length := by
    rw [hmap] at hi
    simpa using hi
  have hqi : List.getD qs i dflt = applyAllFrom m 0 lib (List.getD qs0 i dflt) := by
    rw [hmap]
    exact getD_map_profile _ qs0 i hlen0 dflt
  have hq0names : (List.getD qs0 i dflt).aso_names = [] := by
    obtain ⟨-, hqs0⟩ := parseRows_ok_map qrows qs0 hq
    have hlenr : i < qrows.length := by
      rw [hqs0] at hlen0
      simpa using hlen0
    rw [hqs0, getD_map_profile _ qrows i hlenr []]
    rfl
  have hnames : (List.getD qs i dflt).aso_names
      = (List.enumFrom 0 lib).filterMap (matchEntry m (List.getD qs0 i dflt)) := by
    rw [hqi, applyAllFrom_aso_names, hq0names, List.nil_append]
  rw [hnames]
  have hpw := matchList_pairwise m (List.getD qs0 i dflt) lib
  exact ⟨hpw, fun libIdx => countP_le_one_of_pairwise_lt libIdx hpw⟩

/-- C10 witness: a run where the query matches both library entries: the
match list [(0, 2), (1, 2)] has strictly increasing library indices. -/
theorem C10_each_library_entry_at_most_once_witness :
    List.Pairwise (fun a b : Nat × Rat => a.1 < b.1) [(0, (2 : Rat)), (1, 2)] :=
  (C10_each_library_entry_at_most_once Dist.Hamming [["q".toList, "AAT".toList]]
      [["l1".toList, "ATA".toList], ["l2".toList, "TAA".toList]]
      [Event.matched 0 0 2, Event.matched 0 1 2]
      [AsoProfile.mk ("q".toList) ("AAT".toList) 3 (2, 1, 0, 0) [(0, 2), (1, 2)]]
      [AsoProfile.mk ("l1".toList) ("ATA".toList) 3 (2, 1, 0, 0) [],
       AsoProfile.mk ("l2".toList) ("TAA".toList) 3 (2, 1, 0, 0) []]
      (by decide) 0 (by decide)).1

/-- Helper for C3: a completed run implies every row of both sources had at
least two fields. -/
theorem core_ok_rows (m : Dist) (qrows lrows : List Row)
    (st : List AsoProfile × List AsoProfile)
    (h : (computeDistanceCore m qrows lrows).2 = Except.ok st) :
    ∀ row ∈ qrows ++ lrows, 2 ≤ List.length row := by
  obtain ⟨s1, s2⟩ := st
  have h2 : computeDistanceCore m qrows lrows
      = ((computeDistanceCore m qrows lrows).1, Except.ok (s1, s2)) := by
    rw [← h]
  obtain ⟨qs0, hq, hl, -⟩ := core_ok m qrows lrows _ s1 s2 h2
  intro row hrow
  rcases List.mem_append.mp hrow with hr | hr
  · exact (parseRows_ok_map qrows qs0 hq).1 row hr
  · exact (parseRows_ok_map lrows s2 hl).1 row hr

/-- C3 counterexample: with a well-formed query and library row followed by
a malformed (one-field) library row, the run aborts fatally — but only
after the first library row was already matched against the query: the
matching trace at the abort is non-empty, contradicting "aborts before any
matching occurs". -/
theorem C3_counterexample :
    List.length ["bad".toList] < 2 ∧
    computeDistanceCore Dist.Hamming [["q".toList, "AT".toList]]
        [["l".toList, "TA".toList], ["bad".toList]]
      = ([Event.matched 0 0 2], Except.error EngineError.malformedRow) ∧
    ¬ (computeDistanceCore Dist.Hamming [["q".toList, "AT".toList]]
        [["l".toList, "TA".toList], ["bad".toList]]).1 = [] := by
  exact ⟨by decide, by decide, by decide⟩

/-- C3 (amended): if any row of either source has fewer than two fields the
run aborts with a fatal error and no report (no output lines) is produced;
a malformed QUERY row moreover aborts before any matching occurs (empty
matching trace), but a malformed library row may abort only after earlier
library rows have been matched. -/
theorem C3_malformed_row_aborts (m : Dist) (qrows lrows : List Row)
    (h : ∃ row ∈ qrows ++ lrows, List.length row < 2) :
    (∃ e, (computeDistanceCore m qrows lrows).2 = Except.error e) ∧
    (¬ ∃ out, ReportRel m qrows lrows out) ∧
    ((∃ row ∈ qrows, List.length row < 2) → (computeDistanceCore m qrows lrows).1 = []) := by
  refine ⟨?_, ?_, ?_⟩
  · cases hres : (computeDistanceCore m qrows lrows).2 with
    | error e => exact ⟨e, rfl⟩
    | ok st =>
      obtain ⟨row, hmem, hlen⟩ := h
      have := core_ok_rows m qrows lrows st hres row hmem
      omega
  · rintro ⟨out, tr, qs, lib, chosen, hrun, -⟩
    have hok : (computeDistanceCore m qrows lrows).2 = Except.ok (qs, lib) := by
      rw [hrun]
    obtain ⟨row, hmem, hlen⟩ := h
    have := core_ok_rows m qrows lrows (qs, lib) hok row hmem
    omega
  · rintro ⟨row, hmem, hlen⟩
    cases hq : parseRows qrows with
    | error e =>
      show (computeDistanceCore m qrows lrows).1 = []
      unfold computeDistanceCore
      rw [hq]
    | ok qs0 =>
      have := (parseRows_ok_map qrows qs0 hq).1 row hmem
      omega

/-- C3 witness: the amended statement applied to a run whose only query row
has a single field: the run errors, admits no report, and its matching
trace is empty. -/
theorem C3_malformed_row_aborts_witness :
    (∃ e, (computeDistanceCore Dist.Hamming [["q".toList]]
        [["l".toList, "TA".toList]]).2 = Except.error e) ∧
    (¬ ∃ out, ReportRel Dist.Hamming [["q".toList]] [["l".toList, "TA".toList]] out) ∧
    (computeDistanceCore Dist.Hamming [["q".toList]] [["l".toList, "TA".toList]]).1 = [] := by
  obtain ⟨h1, h2, h3⟩ := C3_malformed_row_aborts Dist.Hamming [["q".toList]]
    [["l".toList, "TA".toList]] ⟨["q".toList], by decide, by decide⟩
  exact ⟨h1, h2, h3 ⟨["q".toList], by decide, by decide⟩⟩

/-- C6 counterexample: the Hamming `unwrap` IS reachable: the query
sequence "éé" (two characters, four UTF-8 bytes) and the library sequence
"aaaa" (four characters, four bytes) agree in byte length and in A/T/G/C
composition (all zero) and differ textually, so the filter passes, but
their character counts differ, so the Hamming computation fails and the
run panics. -/
theorem C6_counterexample :
    computeDistanceCore Dist.Hamming [["q".toList, "éé".toList]]
        [["l".toList, "aaaa".toList]]
      = ([], Except.error EngineError.hammingPanic) := by decide

/-- C6 (amended): for runs whose sequence fields are all ASCII (in
particular pure A/T/G/C sequences), byte-length equality coincides with
character-count equality, so the filter does guarantee equal-length
Hamming operands and the Hamming error branch (the `unwrap`) is
unreachable. -/
theorem C6_no_hamming_panic_on_ascii (qrows lrows : List Row)
    (hq : ∀ row ∈ qrows, ∀ c ∈ List.getD row 1 [], c.toNat ≤ 127)
    (hl : ∀ row ∈ lrows, ∀ c ∈ List.getD row 1 [], c.toNat ≤ 127) :
    (computeDistanceCore Dist.Hamming qrows lrows).2
      ≠ Except.error EngineError.hammingPanic := by
  unfold computeDistanceCore
  cases hpq : parseRows qrows with
  | error e =>
    dsimp only
    obtain ⟨he, -⟩ := parseRows_error qrows e hpq
    subst he
    intro hcon
    exact EngineError.noConfusion (Except.error.inj hcon)
  | ok qs0 =>
    dsimp only
    refine runLibrary_no_panic lrows qs0 [] ?_ hl
    intro q hqmem
    obtain ⟨-, hqs0⟩ := parseRows_ok_map qrows qs0 hpq
    rw [hqs0] at hqmem
    obtain ⟨row, hrow, hqeq⟩ := List.mem_map.mp hqmem
    constructor
    · rw [← hqeq]
      rfl
    · rw [← hqeq]
      show ∀ c ∈ List.getD row 1 [], c.toNat ≤ 127
      exact hq row hrow

/-- C6 witness: the amended statement applied to an all-ASCII run. -/
theorem C6_no_hamming_panic_on_ascii_witness :
    (computeDistanceCore Dist.Hamming [["q".toList, "AT".toList]]
        [["l".toList, "TA".toList]]).2
      ≠ Except.error EngineError.hammingPanic :=
  C6_no_hamming_panic_on_ascii [["q".toList, "AT".toList]] [["l".toList, "TA".toList]]
    (by decide) (by decide)

/-- C2 counterexample: the code sorts with `sort_unstable_by`, which only
guarantees a sorted permutation.  In the run where query "AAT" ties both
library entries at Hamming distance 2, the reversed list [(1, 2), (0, 2)]
is a permitted sort outcome of the match list [(0, 2), (1, 2)], and it
violates the claimed append-order (ascending library index) tie-breaking —
so the code does not guarantee the claimed stability. -/
theorem C2_counterexample :
    computeDistanceCore Dist.Hamming [["q".toList, "AAT".toList]]
        [["l1".toList, "ATA".toList], ["l2".toList, "TAA".toList]]
      = ([Event.matched 0 0 2, Event.matched 0 1 2],
         Except.ok
           ([AsoProfile.mk ("q".toList) ("AAT".toList) 3 (2, 1, 0, 0) [(0, 2), (1, 2)]],
            [AsoProfile.mk ("l1".toList) ("ATA".toList) 3 (2, 1, 0, 0) [],
             AsoProfile.mk ("l2".toList) ("TAA".toList) 3 (2, 1, 0, 0) []])) ∧
    IsSortOutcome [(0, (2 : Rat)), (1, 2)] [(1, (2 : Rat)), (0, 2)] ∧
    ¬ List.Pairwise (fun a b : Nat × Rat => a.2 = b.2 → a.1 < b.1)
        [(1, (2 : Rat)), (0, 2)] :=
  ⟨by decide, ⟨by decide, by decide⟩, by decide⟩

/-- C2 (amended): each query's matches are reported sorted ascending by
distance, but the order of entries with exactly equal distance is not
specified (the code uses an unstable sort); whenever a query's match
distances are pairwise distinct, the reported order is uniquely
determined. -/
theorem C2_sorted_by_distance (m : Dist) (qrows lrows : List Row)
    (tr : List Event) (qs lib : List AsoProfile)
    (_h : computeDistanceCore m qrows lrows = (tr, Except.ok (qs, lib)))
    (i : Nat) (_hi : i < qs.length) (out out2 : List (Nat × Rat))
    (h1 : IsSortOutcome (List.getD qs i dflt).aso_names out) :
    List.Sorted (fun a b : Nat × Rat => a.2 ≤ b.2) out ∧
    (List.Pairwise (fun a b : Nat × Rat => ¬ a.2 = b.2) (List.getD qs i dflt).aso_names →
      IsSortOutcome (List.getD qs i dflt).aso_names out2 → out = out2) :=
  ⟨h1.2, fun hd h2 => sortOutcome_unique hd h1 h2⟩

/-- C2 witness: the amended statement applied to a one-match run. -/
theorem C2_sorted_by_distance_witness :
    List.Sorted (fun a b : Nat × Rat => a.2 ≤ b.2) [(0, (2 : Rat))] ∧
    (List.Pairwise (fun a b : Nat × Rat => ¬ a.2 = b.2) [(0, (2 : Rat))] →
      IsSortOutcome [(0, (2 : Rat))] [(0, (2 : Rat))] →
      [(0, (2 : Rat))] = [(0, (2 : Rat))]) :=
  C2_sorted_by_distance Dist.Hamming [["q".toList, "AT".toList]]
    [["l".toList, "TA".toList]]
    [Event.matched 0 0 2]
    [AsoProfile.mk ("q".toList) ("AT".toList) 2 (1, 1, 0, 0) [(0, 2)]]
    [AsoProfile.mk ("l".toList) ("TA".toList) 2 (1, 1, 0, 0) []]
    (by decide) 0 (by decide) [(0, 2)] [(0, 2)] ⟨by decide, by decide⟩

/-- C8: every report of a completed run consists of the column-header line
followed by one block per query, in original query input order (block `i`
carries the name and sequence of input query row `i`); each block is the
query's own line followed by exactly the query's match list in some order
sorted ascending by distance, where the line for a match entry `e` is a
match line giving the referenced library entry's name, its sequence, and
the stored distance `e.2`; a query with no matches contributes only its
own line. -/
theorem C8_report_structure (m : Dist) (qrows lrows : List Row) (out : List OutputLine)
    (h : ReportRel m qrows lrows out) :
    ∃ tr qs lib blocks,
      computeDistanceCore m qrows lrows = (tr, Except.ok (qs, lib)) ∧
      List.length qs = List.length qrows ∧
      List.length blocks = List.length qs ∧
      out = OutputLine.header :: blocks.flatten ∧
      (∀ i, i < List.length qs →
        (List.getD qs i dflt).name = List.getD (List.getD qrows i []) 0 [] ∧
        (List.getD qs i dflt).seq = List.getD (List.getD qrows i []) 1 []) ∧
      (∀ i, i < List.length qs →
        ∃ sorted,
          IsSortOutcome (List.getD qs i dflt).aso_names sorted ∧
          List.getD blocks i []
            = OutputLine.queryLine (List.getD qs i dflt).name (List.getD qs i dflt).seq
                :: sorted.map (fun e => OutputLine.matchLine
                    (List.getD lib e.1 dflt).name (List.getD lib e.1 dflt).seq e.2) ∧
          List.length sorted = List.length (List.getD qs i dflt).aso_names ∧
          List.Sorted (fun a b : OutputLine => lineDist a ≤ lineDist b)
            (sorted.map (fun e => OutputLine.matchLine
                (List.getD lib e.1 dflt).name (List.getD lib e.1 dflt).seq e.2)) ∧
          ((List.getD qs i dflt).aso_names = [] →
            List.getD blocks i []
              = [OutputLine.queryLine (List.getD qs i dflt).name
                  (List.getD qs i dflt).seq])) := by
  obtain ⟨tr, qs, lib, chosen, hrun, hclen, hsort, hout⟩ := h
  refine ⟨tr, qs, lib, (qs.zip chosen).map (fun p => renderBlock lib p.1 p.2),
    hrun, ?_, ?_, hout, ?_, ?_⟩
  · obtain ⟨qs0, hq, -, hmap⟩ := core_ok m qrows lrows tr qs lib hrun
    obtain ⟨-, hqs0⟩ := parseRows_ok_map qrows qs0 hq
    rw [hmap, hqs0]
    simp
  · rw [List.length_map, List.length_zip, hclen]
    exact Nat.min_self _
  · obtain ⟨qs0, hq, -, hmap⟩ := core_ok m qrows lrows tr qs lib hrun
    obtain ⟨-, hqs0⟩ := parseRows_ok_map qrows qs0 hq
    intro i hi
    have hlen0 : i < qs0.length := by
      rw [hmap] at hi
      simpa using hi
    have hlenr : i < qrows.length := by
      rw [hqs0] at hlen0
      simpa using hlen0
    have hqi : List.getD qs i dflt = applyAllFrom m 0 lib (List.getD qs0 i dflt) := by
      rw [hmap]
      exact getD_map_profile _ qs0 i hlen0 dflt
    have hq0 : List.getD qs0 i dflt
        = AsoProfile.new (List.getD (List.getD qrows i []) 0 [])
            (List.getD (List.getD qrows i []) 1 []) := by
      rw [hqs0]
      exact getD_map_profile _ qrows i hlenr []
    obtain ⟨hn, hs, -, -⟩ := applyAllFrom_fields m lib 0 (List.getD qs0 i dflt)
    constructor
    · rw [hqi, hn, hq0]
      rfl
    · rw [hqi, hs, hq0]
      rfl
  · intro i hi
    have hchosen : i < chosen.length := by
      rw [hclen]
      exact hi
    have hizip : i < (qs.zip chosen).length := by
      rw [List.length_zip, hclen, Nat.min_self]
      exact hi
    have hiblocks : i < ((qs.zip chosen).map (fun p => renderBlock lib p.1 p.2)).length := by
      simpa using hizip
    have hblock : List.getD ((qs.zip chosen).map (fun p => renderBlock lib p.1 p.2)) i []
        = renderBlock lib (List.getD qs i dflt) (List.getD chosen i []) := by
      rw [List.getD_eq_getElem _ _ hiblocks, List.getElem_map, List.getElem_zip,
          List.getD_eq_getElem qs dflt hi, List.getD_eq_getElem chosen [] hchosen]
    obtain ⟨hperm, hsorted⟩ := hsort i hi
    refine ⟨List.getD chosen i [], ⟨hperm, hsorted⟩, ?_, ?_, ?_, ?_⟩
    · rw [hblock]
      rfl
    · exact (hperm.length_eq).symm
    · exact List.Pairwise.map
        (fun e : Nat × Rat => OutputLine.matchLine
          (List.getD lib e.1 dflt).name (List.getD lib e.1 dflt).seq e.2)
        (fun a b hab => hab) hsorted
    · intro hempty
      rw [hempty] at hperm
      have hnil : List.getD chosen i [] = [] := hperm.symm.eq_nil
      rw [hblock, hnil]
      rfl

/-- C8 witness: the structure theorem applied to a concrete one-query,
one-match run and its rendered report. -/
theorem C8_report_structure_witness :
    ∃ tr qs lib blocks,
      computeDistanceCore Dist.Hamming [["q".toList, "AT".toList]]
          [["l".toList, "TA".toList]] = (tr, Except.ok (qs, lib)) ∧
      List.length qs = List.length [["q".toList, "AT".toList]] ∧
      List.length blocks = List.length qs ∧
      [OutputLine.header,
       OutputLine.queryLine ("q".toList) ("AT".toList),
       OutputLine.matchLine ("l".toList) ("TA".toList) 2]
        = OutputLine.header :: blocks.flatten ∧
      (∀ i, i < List.length qs →
        (List.getD qs i dflt).name
          = List.getD (List.getD [["q".toList, "AT".toList]] i []) 0 [] ∧
        (List.getD qs i dflt).seq
          = List.getD (List.getD [["q".toList, "AT".toList]] i []) 1 []) ∧
      (∀ i, i < List.length qs →
        ∃ sorted,
          IsSortOutcome (List.getD qs i dflt).aso_names sorted ∧
          List.getD blocks i []
            = OutputLine.queryLine (List.getD qs i dflt).name (List.getD qs i dflt).seq
                :: sorted.map (fun e => OutputLine.matchLine
                    (List.getD lib e.1 dflt).name (List.getD lib e.1 dflt).seq e.2) ∧
          List.length sorted = List.length (List.getD qs i dflt).aso_names ∧
          List.Sorted (fun a b : OutputLine => lineDist a ≤ lineDist b)
            (sorted.map (fun e => OutputLine.matchLine
                (List.getD lib e.1 dflt).name (List.getD lib e.1 dflt).seq e.2)) ∧
          ((List.getD qs i dflt).aso_names = [] →
            List.getD blocks i []
              = [OutputLine.queryLine (List.getD qs i dflt).name
                  (List.getD qs i dflt).seq])) :=
  C8_report_structure Dist.Hamming [["q".toList, "AT".toList]] [["l".toList, "TA".toList]]
    [OutputLine.header,
     OutputLine.queryLine ("q".toList) ("AT".toList),
     OutputLine.matchLine ("l".toList) ("TA".toList) 2]
    ⟨[Event.matched 0 0 2],
     [AsoProfile.mk ("q".toList) ("AT".toList) 2 (1, 1, 0, 0) [(0, 2)]],
     [AsoProfile.mk ("l".toList) ("TA".toList) 2 (1, 1, 0, 0) []],
     [[(0, 2)]],
     by decide, by decide,
     fun i hi => by
       have h0 : i = 0 := by
         simp at hi
         omega
       subst h0
       exact ⟨by decide, by decide⟩,
     by decide⟩

end Aso
